import Mathlib

set_option maxHeartbeats 1000000
set_option maxRecDepth 8192

/-!
Shallow embedding of the single-line text-input widget core (Go package
`widget`, file containing `TextInput`).  Go strings are modelled as byte
lists; Go `[]rune` conversion and `string(...)` conversion are modelled by
faithful UTF-8 decode/encode with Go semantics (invalid bytes decode to
U+FFFD one leading byte at a time; invalid runes encode as U+FFFD).
Operations that can hit a Go runtime panic (slice bounds out of range)
return `Option`, with `none` standing for the panic.
-/

/-- A Go string: a sequence of bytes. -/
abbrev GoStr := List Nat

/-- Is `b` a UTF-8 continuation byte (0x80..0xBF)? -/
def isCont (b : Nat) : Bool := 128 ≤ b && b ≤ 191

/-- Validity of the second byte of a multi-byte UTF-8 sequence, given the
leading byte, exactly as in Go's `unicode/utf8` accept ranges:
E0 requires A0..BF, ED requires 80..9F, F0 requires 90..BF,
F4 requires 80..8F, all other leads require 80..BF. -/
def utf8Valid2 (b1 b2 : Nat) : Bool :=
  if b1 = 224 then 160 ≤ b2 && b2 ≤ 191
  else if b1 = 237 then 128 ≤ b2 && b2 ≤ 159
  else if b1 = 240 then 144 ≤ b2 && b2 ≤ 191
  else if b1 = 244 then 128 ≤ b2 && b2 ≤ 143
  else isCont b2

/-- Go `[]rune(s)`: UTF-8 decoding of a byte string into code points.
Any invalid encoding contributes one U+FFFD (65533) and consumes exactly
one byte (the leading byte), as Go's `DecodeRuneInString` does.  The four
list patterns, distinguished by length, let a truncated multi-byte
sequence at the end of the string fall into the invalid case. -/
def utf8Decode : GoStr → List Nat
  | [] => []
  | [b1] =>
    if b1 < 128 then [b1] else [65533]
  | [b1, b2] =>
    if b1 < 128 then b1 :: utf8Decode [b2]
    else if 194 ≤ b1 ∧ b1 ≤ 223 then
      if isCont b2 then [(b1 - 192) * 64 + (b2 - 128)]
      else 65533 :: utf8Decode [b2]
    else 65533 :: utf8Decode [b2]
  | [b1, b2, b3] =>
    if b1 < 128 then b1 :: utf8Decode [b2, b3]
    else if 194 ≤ b1 ∧ b1 ≤ 223 then
      if isCont b2 then ((b1 - 192) * 64 + (b2 - 128)) :: utf8Decode [b3]
      else 65533 :: utf8Decode [b2, b3]
    else if 224 ≤ b1 ∧ b1 ≤ 239 then
      if utf8Valid2 b1 b2 && isCont b3 then
        [(b1 - 224) * 4096 + (b2 - 128) * 64 + (b3 - 128)]
      else 65533 :: utf8Decode [b2, b3]
    else 65533 :: utf8Decode [b2, b3]
  | b1 :: b2 :: b3 :: b4 :: t =>
    if b1 < 128 then b1 :: utf8Decode (b2 :: b3 :: b4 :: t)
    else if 194 ≤ b1 ∧ b1 ≤ 223 then
      if isCont b2 then ((b1 - 192) * 64 + (b2 - 128)) :: utf8Decode (b3 :: b4 :: t)
      else 65533 :: utf8Decode (b2 :: b3 :: b4 :: t)
    else if 224 ≤ b1 ∧ b1 ≤ 239 then
      if utf8Valid2 b1 b2 && isCont b3 then
        ((b1 - 224) * 4096 + (b2 - 128) * 64 + (b3 - 128)) :: utf8Decode (b4 :: t)
      else 65533 :: utf8Decode (b2 :: b3 :: b4 :: t)
    else if 240 ≤ b1 ∧ b1 ≤ 244 then
      if utf8Valid2 b1 b2 && isCont b3 && isCont b4 then
        ((b1 - 240) * 262144 + (b2 - 128) * 4096 + (b3 - 128) * 64 + (b4 - 128))
          :: utf8Decode t
      else 65533 :: utf8Decode (b2 :: b3 :: b4 :: t)
    else 65533 :: utf8Decode (b2 :: b3 :: b4 :: t)

/-- Go `string(r)` for a single rune: UTF-8 encoding; surrogates and
out-of-range values encode as U+FFFD (EF BF BD). -/
def encodeRune (r : Nat) : GoStr :=
  if r < 128 then [r]
  else if r < 2048 then [192 + r / 64, 128 + r % 64]
  else if 55296 ≤ r && r ≤ 57343 then [239, 191, 189]
  else if r < 65536 then [224 + r / 4096, 128 + r / 64 % 64, 128 + r % 64]
  else if r ≤ 1114111 then
    [240 + r / 262144, 128 + r / 4096 % 64, 128 + r / 64 % 64, 128 + r % 64]
  else [239, 191, 189]

/-- Go `string(rs)` for a rune slice: concatenation of the encodings. -/
def utf8Encode (rs : List Nat) : GoStr := (rs.map encodeRune).flatten

/-- The rune Go actually stores for a requested code point `r`:
`r` itself when valid, U+FFFD otherwise. -/
def goRune (r : Nat) : Nat :=
  if r < 55296 || (57344 ≤ r && r ≤ 1114111) then r else 65533

/-- One ASCII byte at the head decodes to itself. -/
theorem utf8Decode_cons_of_lt (b : Nat) (l : GoStr) (hb : b < 128) :
    utf8Decode (b :: l) = b :: utf8Decode l := by
  match l with
  | [] => simp [utf8Decode, hb]
  | [x] => simp [utf8Decode, hb]
  | [x, y] => simp [utf8Decode, hb]
  | x :: y :: z :: t => simp [utf8Decode, hb]

/-- Decoding distributes over an ASCII first part. -/
theorem utf8Decode_append_ascii (xs ys : GoStr) (h : ∀ b ∈ xs, b < 128) :
    utf8Decode (xs ++ ys) = xs ++ utf8Decode ys := by
  induction xs with
  | nil => simp
  | cons b t ih =>
    have hb : b < 128 := h b (by simp)
    rw [List.cons_append, utf8Decode_cons_of_lt b (t ++ ys) hb,
      ih (fun x hx => h x (by simp [hx]))]
    simp

/-- ASCII byte strings decode to themselves. -/
theorem utf8Decode_ascii (s : GoStr) (h : ∀ b ∈ s, b < 128) : utf8Decode s = s := by
  have h0 : utf8Decode ([] : GoStr) = [] := rfl
  have := utf8Decode_append_ascii s [] h
  simp only [List.append_nil, h0] at this
  exact this

/-- ASCII rune sequences encode to themselves. -/
theorem utf8Encode_ascii (rs : List Nat) (h : ∀ r ∈ rs, r < 128) : utf8Encode rs = rs := by
  induction rs with
  | nil => simp [utf8Encode]
  | cons r t ih =>
    have hr : r < 128 := h r (by simp)
    simp only [utf8Encode, List.map_cons, List.flatten_cons] at *
    rw [ih (fun x hx => h x (by simp [hx]))]
    simp [encodeRune, if_pos hr]

/-- Every decode step consumes at least one byte, so there are no more
runes than bytes. -/
theorem utf8Decode_length_le (s : GoStr) : (utf8Decode s).length ≤ s.length := by
  induction s using utf8Decode.induct <;>
    simp only [utf8Decode] <;> (try split_ifs) <;> (try simp_all) <;> omega

/-- Encoding a rune always produces at least one byte. -/
theorem encodeRune_length_pos (r : Nat) : 0 < (encodeRune r).length := by
  unfold encodeRune
  split_ifs <;> simp

/-- Encoding a rune sequence produces at least one byte per rune. -/
theorem utf8Encode_length_ge (rs : List Nat) : rs.length ≤ (utf8Encode rs).length := by
  induction rs with
  | nil => simp [utf8Encode]
  | cons r t ih =>
    simp only [utf8Encode, List.map_cons, List.flatten_cons, List.length_append,
      List.length_cons] at *
    have := encodeRune_length_pos r
    omega

/-- A valid two-byte sequence at the head decodes to one rune. -/
theorem utf8Decode_two (b1 b2 : Nat) (l : GoStr) (h1 : 194 ≤ b1) (h2 : b1 ≤ 223)
    (hc : isCont b2 = true) :
    utf8Decode (b1 :: b2 :: l) = ((b1 - 192) * 64 + (b2 - 128)) :: utf8Decode l := by
  match l with
  | [] =>
    simp only [utf8Decode]
    rw [if_neg (by omega), if_pos (And.intro h1 h2), if_pos hc]
  | [x] =>
    simp only [utf8Decode]
    rw [if_neg (by omega), if_pos (And.intro h1 h2), if_pos hc]
  | x :: y :: t =>
    simp only [utf8Decode]
    rw [if_neg (by omega), if_pos (And.intro h1 h2), if_pos hc]

/-- A valid three-byte sequence at the head decodes to one rune. -/
theorem utf8Decode_three (b1 b2 b3 : Nat) (l : GoStr) (h1 : 224 ≤ b1) (h2 : b1 ≤ 239)
    (hv : utf8Valid2 b1 b2 = true) (hc : isCont b3 = true) :
    utf8Decode (b1 :: b2 :: b3 :: l)
      = ((b1 - 224) * 4096 + (b2 - 128) * 64 + (b3 - 128)) :: utf8Decode l := by
  match l with
  | [] =>
    simp only [utf8Decode]
    rw [if_neg (by omega), if_neg (by omega), if_pos (And.intro h1 h2),
      if_pos (by rw [hv, hc]; rfl)]
  | x :: t =>
    simp only [utf8Decode]
    rw [if_neg (by omega), if_neg (by omega), if_pos (And.intro h1 h2),
      if_pos (by rw [hv, hc]; rfl)]

/-- A valid four-byte sequence at the head decodes to one rune. -/
theorem utf8Decode_four (b1 b2 b3 b4 : Nat) (l : GoStr) (h1 : 240 ≤ b1) (h2 : b1 ≤ 244)
    (hv : utf8Valid2 b1 b2 = true) (hc : isCont b3 = true) (hd : isCont b4 = true) :
    utf8Decode (b1 :: b2 :: b3 :: b4 :: l)
      = ((b1 - 240) * 262144 + (b2 - 128) * 4096 + (b3 - 128) * 64 + (b4 - 128))
          :: utf8Decode l := by
  simp only [utf8Decode]
  rw [if_neg (by omega), if_neg (by omega), if_neg (by omega), if_pos (And.intro h1 h2),
    if_pos (by rw [hv, hc, hd]; rfl)]

/-- Decoding an encoded rune at the head of a byte string recovers the rune
Go stores for it (the rune itself when valid, U+FFFD otherwise) followed by
the decoding of the remaining bytes. -/
theorem utf8Decode_encodeRune_append (r : Nat) (ys : GoStr) :
    utf8Decode (encodeRune r ++ ys) = goRune r :: utf8Decode ys := by
  by_cases ha : r < 128
  · rw [encodeRune, if_pos ha]
    rw [List.cons_append, List.nil_append, utf8Decode_cons_of_lt r ys ha]
    have : goRune r = r := by unfold goRune; rw [if_pos]; simp; omega
    rw [this]
  · by_cases hb : r < 2048
    · rw [encodeRune, if_neg ha, if_pos hb]
      simp only [List.cons_append, List.nil_append]
      rw [utf8Decode_two _ _ _ (by omega) (by omega)
        (by unfold isCont; simp; omega)]
      have : goRune r = r := by unfold goRune; rw [if_pos]; simp; omega
      rw [this]
      exact congrArg (fun z => z :: utf8Decode ys) (by omega)
    · by_cases hs : 55296 ≤ r ∧ r ≤ 57343
      · rw [encodeRune, if_neg ha, if_neg hb, if_pos (by simp; omega)]
        simp only [List.cons_append, List.nil_append]
        rw [utf8Decode_three 239 191 189 ys (by omega) (by omega) (by decide) (by decide)]
        have : goRune r = 65533 := by unfold goRune; rw [if_neg]; simp; omega
        rw [this]
      · by_cases hr3 : r < 65536
        · rw [encodeRune, if_neg ha, if_neg hb, if_neg (by simpa using hs), if_pos hr3]
          simp only [List.cons_append, List.nil_append]
          rw [utf8Decode_three _ _ _ _ (by omega) (by omega)
            (by unfold utf8Valid2 isCont; split_ifs <;> simp <;> omega)
            (by unfold isCont; simp; omega)]
          have : goRune r = r := by unfold goRune; rw [if_pos]; simp; omega
          rw [this]
          exact congrArg (fun z => z :: utf8Decode ys) (by omega)
        · by_cases hr4 : r ≤ 1114111
          · rw [encodeRune, if_neg ha, if_neg hb, if_neg (by simpa using hs),
              if_neg hr3, if_pos (by simpa using hr4)]
            simp only [List.cons_append, List.nil_append]
            rw [utf8Decode_four _ _ _ _ _ (by omega) (by omega)
              (by unfold utf8Valid2 isCont; split_ifs <;> simp <;> omega)
              (by unfold isCont; simp; omega) (by unfold isCont; simp; omega)]
            have : goRune r = r := by unfold goRune; rw [if_pos]; simp; omega
            rw [this]
            exact congrArg (fun z => z :: utf8Decode ys) (by omega)
          · rw [encodeRune, if_neg ha, if_neg hb, if_neg (by simpa using hs),
              if_neg hr3, if_neg (by simpa using hr4)]
            simp only [List.cons_append, List.nil_append]
            rw [utf8Decode_three 239 191 189 ys (by omega) (by omega) (by decide) (by decide)]
            have : goRune r = 65533 := by unfold goRune; rw [if_neg]; simp; omega
            rw [this]

/-- Go source `insertChar(s, r, pos)`:
`string([]rune(s)[:pos]) + string(r) + string([]rune(s[pos:]))`.
The head is sliced at RUNE position `pos` but the tail at BYTE position
`pos`.  `none` models the runtime panic of `[]rune(s)[:pos]` when `pos`
exceeds the rune count (and then `s[pos:]` needs no separate check since
the rune count never exceeds the byte count). -/
def insertChar (s : GoStr) (r : Nat) (pos : Nat) : Option GoStr :=
  if pos ≤ (utf8Decode s).length then
    some (utf8Encode ((utf8Decode s).take pos) ++ encodeRune r
      ++ utf8Encode (utf8Decode (s.drop pos)))
  else none

/-- Go source `removeChar(s, pos)`:
`string([]rune(s)[:pos]) + string([]rune(s)[pos+1:])`; both slices are at
rune positions.  `none` models the slice-bounds panic when `pos+1` exceeds
the rune count. -/
def removeChar (s : GoStr) (pos : Nat) : Option GoStr :=
  if pos + 1 ≤ (utf8Decode s).length then
    some (utf8Encode ((utf8Decode s).take pos)
      ++ utf8Encode ((utf8Decode s).drop (pos + 1)))
  else none

/-- The mutable widget fields the edit operations touch: `InputText`,
`cursorPosition`, `scrollOffset`, the widget rectangle (`widget.Rect`),
the padding insets and the disabled flag.  The font face and the
validation function are passed to the operations needing them as explicit
arguments, standing for the corresponding read-only `TextInput` fields. -/
structure EditState where
  text : GoStr
  cursorPosition : Nat
  scrollOffset : Int
  rectMinX : Int
  rectMinY : Int
  rectMaxX : Int
  rectMaxY : Int
  padL : Int
  padT : Int
  padR : Int
  padB : Int
  disabled : Bool
deriving DecidableEq

/-- Go source `TextInput.doInsert`: build the candidate full text with
`insertChar`, consult the validation function if present, commit only on
acceptance (content becomes the candidate, cursor advances by one). -/
def doInsert (valid : Option (GoStr → Bool)) (r : Nat) (st : EditState) :
    Option EditState :=
  match insertChar st.text r st.cursorPosition with
  | none => none
  | some s =>
    match valid with
    | some v =>
      if v s then some { st with text := s, cursorPosition := st.cursorPosition + 1 }
      else some st
    | none => some { st with text := s, cursorPosition := st.cursorPosition + 1 }

/-- Go source `TextInput.doGoLeft`. -/
def doGoLeft (st : EditState) : EditState :=
  if 0 < st.cursorPosition then { st with cursorPosition := st.cursorPosition - 1 }
  else st

/-- Go source `TextInput.doGoRight`: the bound is `len(t.InputText)`,
the BYTE length. -/
def doGoRight (st : EditState) : EditState :=
  if st.cursorPosition < st.text.length then
    { st with cursorPosition := st.cursorPosition + 1 }
  else st

/-- Go source `TextInput.doGoStart`. -/
def doGoStart (st : EditState) : EditState := { st with cursorPosition := 0 }

/-- Go source `TextInput.doGoEnd`: sets the cursor to `len(t.InputText)`,
the BYTE length of the content. -/
def doGoEnd (st : EditState) : EditState := { st with cursorPosition := st.text.length }

/-- Go source `TextInput.doBackspace`. -/
def doBackspace (st : EditState) : Option EditState :=
  if 0 < st.cursorPosition then
    (removeChar st.text (st.cursorPosition - 1)).map
      (fun s => { st with text := s, cursorPosition := st.cursorPosition - 1 })
  else some st

/-- Go source `TextInput.doDelete`: the in-bounds guard compares against
`len(t.InputText)`, the BYTE length. -/
def doDelete (st : EditState) : Option EditState :=
  if st.cursorPosition < st.text.length then
    (removeChar st.text st.cursorPosition).map (fun s => { st with text := s })
  else some st

/-- The per-frame clamp at the start of Go source `TextInput.Render`:
`if t.cursorPosition > len(t.InputText) { t.cursorPosition = len(t.InputText) }`
(byte length). -/
def clampFrame (st : EditState) : EditState :=
  if st.text.length < st.cursorPosition then { st with cursorPosition := st.text.length }
  else st

/-- C1, code-bug evidence.  At content "éa" (bytes C3 A9 61), char 'x'
(120) and cursorIndex 1, `insertChar` splices the head at code-point
position 1 but the tail at BYTE position 1, so the é is torn apart: its
second byte re-decodes as U+FFFD and the result is "éx�a"
(C3 A9 78 EF BF BD 61), not the code-point splice "éxa" (C3 A9 78 61)
that the claim describes. -/
theorem insertChar_c1_code_bug :
    insertChar [195, 169, 97] 120 1 = some [195, 169, 120, 239, 191, 189, 97]
    ∧ utf8Encode ((utf8Decode [195, 169, 97]).take 1 ++ [120]
        ++ (utf8Decode [195, 169, 97]).drop 1) = [195, 169, 120, 97]
    ∧ ([195, 169, 120, 239, 191, 189, 97] : GoStr) ≠ [195, 169, 120, 97] := by
  refine And.intro (by decide) (And.intro (by decide) (by decide))

/-- On ASCII content, `insertChar` splices the encoded char between the
byte-level head and tail (no panic: the rune count equals the byte count). -/
theorem insertChar_ascii (s : GoStr) (r pos : Nat) (h : ∀ b ∈ s, b < 128)
    (hpos : pos ≤ s.length) :
    insertChar s r pos = some (s.take pos ++ encodeRune r ++ s.drop pos) := by
  unfold insertChar
  rw [utf8Decode_ascii s h, if_pos hpos]
  rw [utf8Encode_ascii (s.take pos) (fun b hb => h b (List.take_subset pos s hb)),
    utf8Decode_ascii (s.drop pos) (fun b hb => h b (List.drop_subset pos s hb)),
    utf8Encode_ascii (s.drop pos) (fun b hb => h b (List.drop_subset pos s hb))]

/-- Decoding an ASCII head, an encoded rune, and an ASCII tail. -/
theorem utf8Decode_ascii_rune_ascii (xs ys : GoStr) (r : Nat)
    (hx : ∀ b ∈ xs, b < 128) (hy : ∀ b ∈ ys, b < 128) :
    utf8Decode (xs ++ encodeRune r ++ ys) = xs ++ goRune r :: ys := by
  rw [List.append_assoc, utf8Decode_append_ascii xs (encodeRune r ++ ys) hx,
    utf8Decode_encodeRune_append r ys, utf8Decode_ascii ys hy]

/-- C2: an insert first builds the candidate full text and commits only if
the validator accepts it (content becomes the candidate, cursor advances by
one); on rejection both are unchanged.  Backspace and delete-forward take no
validator at all and always commit when in bounds.  With a validator
rejecting any text of more than N code points, typing into an (ASCII)
string of N code points leaves content and cursor unchanged. -/
theorem doInsert_validation_gate (v : GoStr → Bool) (r : Nat) (st : EditState)
    (cand : GoStr) (hcand : insertChar st.text r st.cursorPosition = some cand) :
    (v cand = true →
      doInsert (some v) r st
        = some { st with text := cand, cursorPosition := st.cursorPosition + 1 })
    ∧ (v cand = false → doInsert (some v) r st = some st)
    ∧ (∀ st2 : EditState, 0 < st2.cursorPosition →
        st2.cursorPosition ≤ (utf8Decode st2.text).length →
        ∃ s2, removeChar st2.text (st2.cursorPosition - 1) = some s2
          ∧ doBackspace st2
            = some { st2 with text := s2, cursorPosition := st2.cursorPosition - 1 })
    ∧ (∀ st2 : EditState, st2.cursorPosition < (utf8Decode st2.text).length →
        ∃ s2, removeChar st2.text st2.cursorPosition = some s2
          ∧ doDelete st2 = some { st2 with text := s2 })
    ∧ (∀ (N : Nat) (st2 : EditState) (r2 : Nat),
        (∀ b ∈ st2.text, b < 128) → st2.text.length = N →
        st2.cursorPosition ≤ N →
        doInsert (some (fun s => decide ((utf8Decode s).length ≤ N))) r2 st2 = some st2) := by
  refine And.intro ?_ (And.intro ?_ (And.intro ?_ (And.intro ?_ ?_)))
  · intro hv
    unfold doInsert
    rw [hcand]
    simp [hv]
  · intro hv
    unfold doInsert
    rw [hcand]
    simp [hv]
  · intro st2 hpos hlen
    have hok : st2.cursorPosition - 1 + 1 ≤ (utf8Decode st2.text).length := by omega
    have hrm : removeChar st2.text (st2.cursorPosition - 1)
        = some (utf8Encode ((utf8Decode st2.text).take (st2.cursorPosition - 1))
          ++ utf8Encode ((utf8Decode st2.text).drop (st2.cursorPosition - 1 + 1))) := by
      unfold removeChar
      rw [if_pos hok]
    refine Exists.intro _ (And.intro hrm ?_)
    unfold doBackspace
    rw [if_pos hpos, hrm]
    rfl
  · intro st2 hlt
    have hle : (utf8Decode st2.text).length ≤ st2.text.length := utf8Decode_length_le _
    have hok : st2.cursorPosition + 1 ≤ (utf8Decode st2.text).length := by omega
    have hrm : removeChar st2.text st2.cursorPosition
        = some (utf8Encode ((utf8Decode st2.text).take st2.cursorPosition)
          ++ utf8Encode ((utf8Decode st2.text).drop (st2.cursorPosition + 1))) := by
      unfold removeChar
      rw [if_pos hok]
    refine Exists.intro _ (And.intro hrm ?_)
    unfold doDelete
    rw [if_pos (by omega), hrm]
    rfl
  · intro N st2 r2 hascii hN hpos
    have hins := insertChar_ascii st2.text r2 st2.cursorPosition hascii (by omega)
    unfold doInsert
    rw [hins]
    have hdec : utf8Decode (st2.text.take st2.cursorPosition ++ encodeRune r2
        ++ st2.text.drop st2.cursorPosition)
        = st2.text.take st2.cursorPosition
          ++ goRune r2 :: st2.text.drop st2.cursorPosition := by
      exact utf8Decode_ascii_rune_ascii _ _ r2
        (fun b hb => hascii b (List.take_subset _ st2.text hb))
        (fun b hb => hascii b (List.drop_subset _ st2.text hb))
    have hlen : (utf8Decode (st2.text.take st2.cursorPosition ++ encodeRune r2
        ++ st2.text.drop st2.cursorPosition)).length = N + 1 := by
      rw [hdec]
      simp only [List.length_append, List.length_cons, List.length_take,
        List.length_drop]
      omega
    dsimp only
    rw [if_neg (by simp only [decide_eq_true_eq, hlen]; omega)]

/-- Go source `fontAdvance(s, f)`: rounded advance width of `s` under face
`f`.  The face (`font.BoundString` plus rounding) is external, so it is
modelled as an abstract integer-valued measure on byte strings. -/
def fontAdvance (s : GoStr) (f : GoStr → Int) : Int := f s

/-- The binary-search loop of Go source `fontStringIndex`: the interval
[start, end) ranges over BYTE indices (`end` starts at `len(s)`), while the
measured prefix `string([]rune(s)[:p])` is sliced at RUNE position `p`.
`rl` is the rune count and `A p` the advance of the `p`-rune prefix;
`none` models the slice-bounds panic when `p` exceeds `rl`.  The `Bool`
in the result distinguishes the early `return p` on an exact hit (`true`)
from leaving the loop via `break` (`false`, after which the caller runs
the fix-up comparison). -/
def fsiLoop (rl : Nat) (A : Nat → Int) (x : Int) (start end_ : Nat) :
    Option (Bool × Nat) :=
  let p := start + (end_ - start) / 2
  if rl < p then none
  else if x = A p then some (true, p)
  else if A p < x then
    if _h : p = start then some (false, p) else fsiLoop rl A x p end_
  else
    if _h : end_ = p then some (false, p) else fsiLoop rl A x start p
termination_by end_ - start + (if end_ < start then 1 else 0)
decreasing_by
  · split_ifs <;> omega
  · split_ifs <;> omega

/-- Go source `fontStringIndex(s, f, x)`: binary search for the code-point
boundary whose advance is nearest `x`, followed by the two-candidate
fix-up (`p` vs `p+1`, strict improvement required to advance).  `none`
models the slice-bounds panics (`[]rune(s)[:p]` inside the loop,
`[]rune(s)[:p+1]` in the fix-up).  `math.Abs` over exact small integers is
modelled as integer absolute value. -/
def fontStringIndex (s : GoStr) (f : GoStr → Int) (x : Int) : Option Nat :=
  match fsiLoop (utf8Decode s).length
      (fun p => fontAdvance (utf8Encode ((utf8Decode s).take p)) f) x 0 s.length with
  | none => none
  | some (true, p) => some p
  | some (false, p) =>
    if 0 < s.length then
      if (utf8Decode s).length < p + 1 then none
      else
        if |x - fontAdvance (utf8Encode ((utf8Decode s).take (p + 1))) f|
            < |x - fontAdvance (utf8Encode ((utf8Decode s).take p)) f| then
          some (p + 1)
        else some p
    else some p

/-- Go source `TextInput.doGoXY(x, y)`: if the click is inside the widget
rectangle, clamp `x` to the padded content rectangle, then look up the
code-point index at offset `x - scrollOffset - tr.Min.X`.  The padded
rectangle `t.padding.Apply(t.widget.Rect)` is modelled from the spec
(clamping the pointer X to the padded content rectangle bounds: the
rectangle shrunk by the left/right padding); `Insets.Apply` itself lives
in the widget shell outside the given sources. -/
def goXYTarget (x : Int) (st : EditState) : Int :=
  let trMinX := st.rectMinX + st.padL
  let trMaxX := st.rectMaxX - st.padR
  let x1 := if x < trMinX then trMinX else x
  let x2 := if trMaxX < x1 then trMaxX else x1
  x2 - st.scrollOffset - trMinX

def doGoXY (face : GoStr → Int) (x y : Int) (st : EditState) : Option EditState :=
  if st.rectMinX ≤ x ∧ x < st.rectMaxX ∧ st.rectMinY ≤ y ∧ y < st.rectMaxY then
    match fontStringIndex st.text face (goXYTarget x st) with
    | none => none
    | some i => some { st with cursorPosition := i }
  else some st

/-- Loop step: midpoint out of rune range — the prefix slice panics. -/
theorem fsiLoop_none (rl : Nat) (A : Nat → Int) (x : Int) (start end_ : Nat)
    (h : rl < start + (end_ - start) / 2) : fsiLoop rl A x start end_ = none := by
  rw [fsiLoop]
  simp only [if_pos h]

/-- Loop step: exact hit — early return. -/
theorem fsiLoop_hit (rl : Nat) (A : Nat → Int) (x : Int) (start end_ : Nat)
    (h1 : ¬ rl < start + (end_ - start) / 2) (h2 : x = A (start + (end_ - start) / 2)) :
    fsiLoop rl A x start end_ = some (true, start + (end_ - start) / 2) := by
  rw [fsiLoop]
  simp only [if_neg h1, if_pos h2]

/-- Loop step: target right of midpoint advance, midpoint stuck — break. -/
theorem fsiLoop_gt_break (rl : Nat) (A : Nat → Int) (x : Int) (start end_ : Nat)
    (h1 : ¬ rl < start + (end_ - start) / 2) (h2 : ¬ x = A (start + (end_ - start) / 2))
    (h3 : A (start + (end_ - start) / 2) < x) (h4 : start + (end_ - start) / 2 = start) :
    fsiLoop rl A x start end_ = some (false, start + (end_ - start) / 2) := by
  rw [fsiLoop]
  simp only [if_neg h1, if_neg h2, if_pos h3, dif_pos h4]

/-- Loop step: target right of midpoint advance — move `start` up. -/
theorem fsiLoop_gt_step (rl : Nat) (A : Nat → Int) (x : Int) (start end_ : Nat)
    (h1 : ¬ rl < start + (end_ - start) / 2) (h2 : ¬ x = A (start + (end_ - start) / 2))
    (h3 : A (start + (end_ - start) / 2) < x) (h4 : ¬ start + (end_ - start) / 2 = start) :
    fsiLoop rl A x start end_ = fsiLoop rl A x (start + (end_ - start) / 2) end_ := by
  rw [fsiLoop]
  simp only [if_neg h1, if_neg h2, if_pos h3, dif_neg h4]

/-- Loop step: target left of midpoint advance, `end` stuck — break. -/
theorem fsiLoop_lt_break (rl : Nat) (A : Nat → Int) (x : Int) (start end_ : Nat)
    (h1 : ¬ rl < start + (end_ - start) / 2) (h2 : ¬ x = A (start + (end_ - start) / 2))
    (h3 : ¬ A (start + (end_ - start) / 2) < x) (h4 : end_ = start + (end_ - start) / 2) :
    fsiLoop rl A x start end_ = some (false, start + (end_ - start) / 2) := by
  rw [fsiLoop]
  simp only [if_neg h1, if_neg h2, if_neg h3, dif_pos h4]

/-- Loop step: target left of midpoint advance — move `end` down. -/
theorem fsiLoop_lt_step (rl : Nat) (A : Nat → Int) (x : Int) (start end_ : Nat)
    (h1 : ¬ rl < start + (end_ - start) / 2) (h2 : ¬ x = A (start + (end_ - start) / 2))
    (h3 : ¬ A (start + (end_ - start) / 2) < x) (h4 : ¬ end_ = start + (end_ - start) / 2) :
    fsiLoop rl A x start end_ = fsiLoop rl A x start (start + (end_ - start) / 2) := by
  rw [fsiLoop]
  simp only [if_neg h1, if_neg h2, if_neg h3, dif_neg h4]

/-- C10, code-bug evidence: on content "é" (bytes C3 A9, a single code
point) with a face giving every code point an advance of 10px, the lookup
at offset 11 runs the binary search with `end = len(s) = 2` — the BYTE
length — breaks at `p = 1`, and the fix-up then slices `[]rune(s)[:p+1]`
= `[]rune(s)[:2]` with only one rune available: a slice-bounds panic
(`none`), so the internal rune-slice indices are not bounded by the number
of code points and the function does panic. -/
theorem fontStringIndex_c10_code_bug :
    fontStringIndex [195, 169] (fun bs => 10 * ((utf8Decode bs).length : Int)) 11 = none := by
  unfold fontStringIndex
  rw [fsiLoop_gt_step _ _ _ _ _ (by decide) (by decide) (by decide) (by decide)]
  rw [fsiLoop_gt_break _ _ _ _ _ (by decide) (by decide) (by decide) (by decide)]
  decide

/-- The click-scenario state of C5: content "ab", widget rectangle
x ∈ [0, 100), y ∈ [0, 20), no padding, scrollOffset 0, cursor at 0. -/
def abState : EditState :=
  { text := [97, 98], cursorPosition := 0, scrollOffset := 0,
    rectMinX := 0, rectMinY := 0, rectMaxX := 100, rectMaxY := 20,
    padL := 0, padT := 0, padR := 0, padB := 0, disabled := false }

/-- The C5 face: every byte of "ab" is one glyph of advance 10px. -/
def abFace : GoStr → Int := fun bs => 10 * (bs.length : Int)

/-- Boundary lookup for "ab" at offset 5: nearer to boundary 0. -/
theorem fontStringIndex_ab_five : fontStringIndex [97, 98] abFace 5 = some 0 := by
  unfold fontStringIndex
  rw [fsiLoop_lt_step _ _ _ _ _ (by decide) (by decide) (by decide) (by decide)]
  rw [fsiLoop_gt_break _ _ _ _ _ (by decide) (by decide) (by decide) (by decide)]
  decide

/-- Boundary lookup for "ab" at offset 15: equidistant from the boundaries
at 10 and 20, and the strict-improvement fix-up does not advance. -/
theorem fontStringIndex_ab_fifteen : fontStringIndex [97, 98] abFace 15 = some 1 := by
  unfold fontStringIndex
  rw [fsiLoop_gt_step _ _ _ _ _ (by decide) (by decide) (by decide) (by decide)]
  rw [fsiLoop_gt_break _ _ _ _ _ (by decide) (by decide) (by decide) (by decide)]
  decide

/-- C5, counterexample: with glyph advances a=10px, b=10px and the content
rectangle starting at x=0 (scrollOffset 0), a click at x=15 is exactly
equidistant from boundary 1 (advance 10) and boundary 2 (advance 20); the
strict-improvement tie rule keeps the smaller index, so the cursor is set
to 1 — not 2 as the claim states. -/
theorem doGoXY_c5_counterexample :
    doGoXY abFace 15 10 abState = some { abState with cursorPosition := 1 }
    ∧ some { abState with cursorPosition := 1 }
        ≠ some { abState with cursorPosition := 2 } := by
  constructor
  · unfold doGoXY
    rw [if_pos (by decide)]
    rw [show goXYTarget 15 abState = (15 : Int) from by decide]
    rw [show abState.text = [97, 98] from rfl, fontStringIndex_ab_fifteen]
    rfl
  · decide

/-- C5 (amended): for text "ab" with glyph advances a=10px, b=10px, content
rectangle starting at x=0 and scrollOffset 0, a click at x=5 sets the
cursor to index 0, and a click at x=15 sets it to index 1 (15 is exactly
equidistant from the boundaries at 10 and 20, and ties keep the smaller
index). -/
theorem doGoXY_click_scenario :
    doGoXY abFace 5 10 abState = some { abState with cursorPosition := 0 }
    ∧ doGoXY abFace 15 10 abState = some { abState with cursorPosition := 1 } := by
  constructor
  · unfold doGoXY
    rw [if_pos (by decide)]
    rw [show goXYTarget 5 abState = (5 : Int) from by decide]
    rw [show abState.text = [97, 98] from rfl, fontStringIndex_ab_five]
    rfl
  · unfold doGoXY
    rw [if_pos (by decide)]
    rw [show goXYTarget 15 abState = (15 : Int) from by decide]
    rw [show abState.text = [97, 98] from rfl, fontStringIndex_ab_fifteen]
    rfl

/-- The mutating operations of the input state machine: character insert,
backspace, delete-forward, the four cursor movers, click positioning and
the per-frame cursor clamp at the start of `Render`. -/
inductive EditOp where
  | ins (r : Nat)
  | backspace
  | del
  | goLeft
  | goRight
  | goStart
  | goEnd
  | click (x y : Int)
  | frame
deriving DecidableEq

/-- Apply one operation; the face and the optional validation function
stand for the corresponding read-only `TextInput` fields. -/
def applyOp (face : GoStr → Int) (valid : Option (GoStr → Bool)) :
    EditOp → EditState → Option EditState
  | .ins r, st => doInsert valid r st
  | .backspace, st => doBackspace st
  | .del, st => doDelete st
  | .goLeft, st => some (doGoLeft st)
  | .goRight, st => some (doGoRight st)
  | .goStart, st => some (doGoStart st)
  | .goEnd, st => some (doGoEnd st)
  | .click x y, st => doGoXY face x y st
  | .frame, st => some (clampFrame st)

/-- Run a sequence of operations left to right; `none` once any panics. -/
def runOps (face : GoStr → Int) (valid : Option (GoStr → Bool)) :
    List EditOp → EditState → Option EditState
  | [], st => some st
  | op :: ops, st =>
    match applyOp face valid op st with
    | none => none
    | some st1 => runOps face valid ops st1

/-- The cursor bound the code actually maintains: at most the BYTE length
of the content. -/
def cursorInv (st : EditState) : Prop := st.cursorPosition ≤ st.text.length

instance (st : EditState) : Decidable (cursorInv st) := by
  unfold cursorInv
  infer_instance

/-- A committed insert leaves the cursor within the new byte length. -/
theorem insertChar_length (s : GoStr) (r pos : Nat) (out : GoStr)
    (h : insertChar s r pos = some out) : pos + 1 ≤ out.length := by
  unfold insertChar at h
  by_cases hc : pos ≤ (utf8Decode s).length
  · rw [if_pos hc, Option.some.injEq] at h
    have h1 : pos ≤ (utf8Encode ((utf8Decode s).take pos)).length := by
      have := utf8Encode_length_ge ((utf8Decode s).take pos)
      simp only [List.length_take] at this
      omega
    have h2 := encodeRune_length_pos r
    rw [← h]
    simp only [List.length_append]
    omega
  · rw [if_neg hc] at h
    exact absurd h (by simp)

/-- Removing a rune keeps the removal position within the new byte length. -/
theorem removeChar_length (s : GoStr) (pos : Nat) (out : GoStr)
    (h : removeChar s pos = some out) : pos ≤ out.length := by
  unfold removeChar at h
  by_cases hc : pos + 1 ≤ (utf8Decode s).length
  · rw [if_pos hc, Option.some.injEq] at h
    have h1 : pos ≤ (utf8Encode ((utf8Decode s).take pos)).length := by
      have := utf8Encode_length_ge ((utf8Decode s).take pos)
      simp only [List.length_take] at this
      omega
    rw [← h]
    simp only [List.length_append]
    omega
  · rw [if_neg hc] at h
    exact absurd h (by simp)

/-- Any index the search loop hands back is bounded by the rune count. -/
theorem fsiLoop_le (rl : Nat) (A : Nat → Int) (x : Int) (start end_ : Nat) :
    ∀ (b : Bool) (p : Nat), fsiLoop rl A x start end_ = some (b, p) → p ≤ rl := by
  induction start, end_ using fsiLoop.induct rl A x with
  | case1 start end_ p0 h1 =>
    intro b p h
    rw [fsiLoop_none rl A x start end_ h1] at h
    exact absurd h (by simp)
  | case2 start end_ p0 h1 h2 =>
    intro b p h
    rw [fsiLoop_hit rl A x start end_ h1 h2] at h
    simp only [Option.some.injEq, Prod.mk.injEq] at h
    have h1n : ¬ rl < start + (end_ - start) / 2 := h1
    omega
  | case3 start end_ p0 h1 h2 h3 h4 =>
    intro b p h
    rw [fsiLoop_gt_break rl A x start end_ h1 h2 h3 h4] at h
    simp only [Option.some.injEq, Prod.mk.injEq] at h
    have h1n : ¬ rl < start + (end_ - start) / 2 := h1
    omega
  | case4 start end_ p0 h1 h2 h3 h4 ih =>
    intro b p h
    rw [fsiLoop_gt_step rl A x start end_ h1 h2 h3 h4] at h
    exact ih b p h
  | case5 start end_ p0 h1 h2 h3 h4 =>
    intro b p h
    rw [fsiLoop_lt_break rl A x start end_ h1 h2 h3 h4] at h
    simp only [Option.some.injEq, Prod.mk.injEq] at h
    have h1n : ¬ rl < start + (end_ - start) / 2 := h1
    omega
  | case6 start end_ p0 h1 h2 h3 h4 ih =>
    intro b p h
    rw [fsiLoop_lt_step rl A x start end_ h1 h2 h3 h4] at h
    exact ih b p h


/-- The index returned by `fontStringIndex` never exceeds the byte length
of the string (it is in fact bounded by the rune count). -/
theorem fontStringIndex_le (s : GoStr) (f : GoStr → Int) (x : Int) (i : Nat)
    (h : fontStringIndex s f x = some i) : i ≤ s.length := by
  unfold fontStringIndex at h
  have hrl := utf8Decode_length_le s
  cases hm : fsiLoop (utf8Decode s).length
      (fun p => fontAdvance (utf8Encode ((utf8Decode s).take p)) f) x 0 s.length with
  | none =>
    rw [hm] at h
    exact absurd h (by simp)
  | some bp =>
    obtain ⟨b, p⟩ := bp
    have hple := fsiLoop_le _ _ _ _ _ b p hm
    rw [hm] at h
    cases b with
    | true =>
      simp only [Option.some.injEq] at h
      omega
    | false =>
      dsimp only at h
      split_ifs at h with hlen hov habs
      · simp only [Option.some.injEq] at h
        omega
      · simp only [Option.some.injEq] at h
        omega
      · simp only [Option.some.injEq] at h
        omega

/-- Every single operation preserves the byte-length cursor bound. -/
theorem applyOp_preserves (face : GoStr → Int) (valid : Option (GoStr → Bool))
    (op : EditOp) (st st1 : EditState) (hinv : cursorInv st)
    (happ : applyOp face valid op st = some st1) : cursorInv st1 := by
  unfold cursorInv at hinv
  cases op with
  | ins r =>
    simp only [applyOp, doInsert] at happ
    cases hic : insertChar st.text r st.cursorPosition with
    | none =>
      rw [hic] at happ
      exact absurd happ (by simp)
    | some cand =>
      rw [hic] at happ
      have hlen := insertChar_length st.text r st.cursorPosition cand hic
      cases valid with
      | none =>
        simp only [Option.some.injEq] at happ
        rw [← happ]
        unfold cursorInv
        dsimp only
        omega
      | some v =>
        dsimp only at happ
        split_ifs at happ <;> simp only [Option.some.injEq] at happ <;> rw [← happ] <;>
          unfold cursorInv <;> (try dsimp only) <;> omega
  | backspace =>
    simp only [applyOp, doBackspace] at happ
    split_ifs at happ with hpos
    · cases hrc : removeChar st.text (st.cursorPosition - 1) with
      | none =>
        rw [hrc] at happ
        exact absurd happ (by simp)
      | some out =>
        rw [hrc] at happ
        have := removeChar_length st.text (st.cursorPosition - 1) out hrc
        simp only [Option.map_some', Option.some.injEq] at happ
        rw [← happ]
        unfold cursorInv
        dsimp only
        omega
    · simp only [Option.some.injEq] at happ
      rw [← happ]
      exact hinv
  | del =>
    simp only [applyOp, doDelete] at happ
    split_ifs at happ with hpos
    · cases hrc : removeChar st.text st.cursorPosition with
      | none =>
        rw [hrc] at happ
        exact absurd happ (by simp)
      | some out =>
        rw [hrc] at happ
        have := removeChar_length st.text st.cursorPosition out hrc
        simp only [Option.map_some', Option.some.injEq] at happ
        rw [← happ]
        unfold cursorInv
        dsimp only
        omega
    · simp only [Option.some.injEq] at happ
      rw [← happ]
      exact hinv
  | goLeft =>
    simp only [applyOp, doGoLeft] at happ
    split_ifs at happ <;> simp only [Option.some.injEq] at happ <;> rw [← happ] <;>
      unfold cursorInv <;> (try dsimp only) <;> omega
  | goRight =>
    simp only [applyOp, doGoRight] at happ
    split_ifs at happ with hlt <;> simp only [Option.some.injEq] at happ <;> rw [← happ] <;>
      unfold cursorInv <;> (try dsimp only) <;> omega
  | goStart =>
    simp only [applyOp, doGoStart, Option.some.injEq] at happ
    rw [← happ]
    unfold cursorInv
    dsimp only
    omega
  | goEnd =>
    simp only [applyOp, doGoEnd, Option.some.injEq] at happ
    rw [← happ]
    unfold cursorInv
    dsimp only
    omega
  | click x y =>
    simp only [applyOp, doGoXY] at happ
    split_ifs at happ with hin
    · cases hfi : fontStringIndex st.text face (goXYTarget x st) with
      | none =>
        rw [hfi] at happ
        exact absurd happ (by simp)
      | some i =>
        rw [hfi] at happ
        have := fontStringIndex_le _ _ _ _ hfi
        simp only [Option.some.injEq] at happ
        rw [← happ]
        unfold cursorInv
        dsimp only
        omega
    · simp only [Option.some.injEq] at happ
      rw [← happ]
      exact hinv
  | frame =>
    simp only [applyOp, clampFrame] at happ
    split_ifs at happ <;> simp only [Option.some.injEq] at happ <;> rw [← happ] <;>
      unfold cursorInv <;> (try dsimp only) <;> omega

/-- The clamp at the start of every frame restores the byte bound from any
state, in particular right after the content was externally replaced. -/
theorem clampFrame_establishes (st : EditState) : cursorInv (clampFrame st) := by
  unfold clampFrame
  split_ifs with h <;> unfold cursorInv <;> (try dsimp only) <;> omega

/-- Sequences of operations preserve the byte-length cursor bound. -/
theorem runOps_preserves (face : GoStr → Int) (valid : Option (GoStr → Bool)) :
    ∀ (ops : List EditOp) (st st1 : EditState), cursorInv st →
      runOps face valid ops st = some st1 → cursorInv st1 := by
  intro ops
  induction ops with
  | nil =>
    intro st st1 hinv hrun
    simp only [runOps, Option.some.injEq] at hrun
    rw [← hrun]
    exact hinv
  | cons op ops ih =>
    intro st st1 hinv hrun
    simp only [runOps] at hrun
    cases happ : applyOp face valid op st with
    | none =>
      rw [happ] at hrun
      exact absurd hrun (by simp)
    | some stm =>
      rw [happ] at hrun
      exact ih stm st1 (applyOp_preserves face valid op st stm hinv happ) hrun

/-- C3 (amended): for every state satisfying the byte-length cursor bound
and every sequence of operations (insert, backspace, delete-forward, the
four cursor movers, click positioning, the per-frame clamp) that completes
without a runtime panic, the cursor index stays an integer in
[0, len(content)] measured in BYTES (it is a natural number, hence never
negative); and the per-frame clamp re-establishes this byte bound from any
state whatsoever, in particular after the content is externally replaced
by a shorter string.  The code-point bound of the original claim fails:
see the counterexample. -/
theorem runOps_cursor_invariant (face : GoStr → Int) (valid : Option (GoStr → Bool))
    (ops : List EditOp) (st st1 : EditState) (hinv : cursorInv st)
    (hrun : runOps face valid ops st = some st1) :
    cursorInv st1 ∧ ∀ st2 : EditState, cursorInv (clampFrame st2) :=
  And.intro (runOps_preserves face valid ops st st1 hinv hrun) clampFrame_establishes

/-- Witness for C3 (amended) at a concrete run: typing an 'a' into "ab",
going to the end, deleting backwards and clamping ends with content "aa"
and cursor 2 ≤ 2. -/
theorem runOps_cursor_invariant_witness :
    (cursorInv abState
      ∧ runOps abFace none [EditOp.ins 97, EditOp.goEnd, EditOp.backspace, EditOp.frame]
          abState = some { abState with text := [97, 97], cursorPosition := 2 })
    ∧ (cursorInv { abState with text := [97, 97], cursorPosition := 2 }
        ∧ ∀ st2 : EditState, cursorInv (clampFrame st2)) :=
  And.intro (And.intro (by decide) (by decide))
    (runOps_cursor_invariant abFace none
      [EditOp.ins 97, EditOp.goEnd, EditOp.backspace, EditOp.frame] abState
      { abState with text := [97, 97], cursorPosition := 2 } (by decide) (by decide))

/-- C3, counterexample: start from the "ab" state with the content
externally replaced by "é" (bytes C3 A9 — a single code point), run the
per-frame clamp, then the End command (one of the four cursor movers):
the cursor lands at 2, the byte length, exceeding the code-point length 1
— the claimed invariant `cursorIndex ∈ [0, len(content) in code points]`
is violated right after a mutation, and the next frame's clamp (against
the byte length) does not restore it. -/
theorem cursor_c3_counterexample :
    (clampFrame (doGoEnd (clampFrame { abState with text := [195, 169] }))).cursorPosition = 2
    ∧ (utf8Decode (clampFrame (doGoEnd (clampFrame
        { abState with text := [195, 169] }))).text).length = 1
    ∧ ¬ ((doGoEnd (clampFrame { abState with text := [195, 169] })).cursorPosition
        ≤ (utf8Decode (doGoEnd (clampFrame { abState with text := [195, 169] })).text).length) := by
  refine And.intro (by decide) (And.intro (by decide) (by decide))

/-- Witness for C2 at concrete inputs: typing '!' (33) into "ab" at cursor
0, with a validator accepting at most 9 code points; the candidate "!ab"
is built first and drives the commit decision. -/
theorem doInsert_validation_gate_witness :
    (insertChar abState.text 33 abState.cursorPosition = some [33, 97, 98])
    ∧ (((fun s => decide ((utf8Decode s).length ≤ 9)) [33, 97, 98] = true →
        doInsert (some (fun s => decide ((utf8Decode s).length ≤ 9))) 33 abState
          = some
            { abState with text := [33, 97, 98], cursorPosition := abState.cursorPosition + 1 })
      ∧ ((fun s => decide ((utf8Decode s).length ≤ 9)) [33, 97, 98] = false →
          doInsert (some (fun s => decide ((utf8Decode s).length ≤ 9))) 33 abState
            = some abState)
      ∧ (∀ st2 : EditState, 0 < st2.cursorPosition →
          st2.cursorPosition ≤ (utf8Decode st2.text).length →
          ∃ s2, removeChar st2.text (st2.cursorPosition - 1) = some s2
            ∧ doBackspace st2
              = some { st2 with text := s2, cursorPosition := st2.cursorPosition - 1 })
      ∧ (∀ st2 : EditState, st2.cursorPosition < (utf8Decode st2.text).length →
          ∃ s2, removeChar st2.text st2.cursorPosition = some s2
            ∧ doDelete st2 = some { st2 with text := s2 })
      ∧ (∀ (N : Nat) (st2 : EditState) (r2 : Nat),
          (∀ b ∈ st2.text, b < 128) → st2.text.length = N →
          st2.cursorPosition ≤ N →
          doInsert (some (fun s => decide ((utf8Decode s).length ≤ N))) r2 st2
            = some st2)) :=
  And.intro (by decide)
    (doInsert_validation_gate (fun s => decide ((utf8Decode s).length ≤ 9)) 33 abState
      [33, 97, 98] (by decide))

/-- Search-loop postcondition.  With the interval invariants of the
initial call (advance below `x` strictly left of `start` unless `start`
is 0; advance above `x` strictly right of `end` unless `end` is `n`), the
loop terminates without panicking at some `p` and either hits `x` exactly
(early return) or breaks with `x` strictly between the advances at `p`
and at `p+1` — except at the extreme ends. -/
theorem fsiLoop_spec (n : Nat) (A : Nat → Int) (x : Int) :
    ∀ (d start end_ : Nat), end_ - start ≤ d → start ≤ end_ → end_ ≤ n → start < n →
      (start = 0 ∨ A start < x) → (end_ = n ∨ x < A end_) →
      ∃ b p, fsiLoop n A x start end_ = some (b, p)
        ∧ ((b = true ∧ x = A p ∧ p < n)
          ∨ (b = false ∧ A p < x ∧ p + 1 ≤ n ∧ (p + 1 = n ∨ x < A (p + 1)))
          ∨ (b = false ∧ x < A p ∧ p = 0)) := by
  intro d
  induction d with
  | zero =>
    intro start end_ hd hse hen hsn hL hR
    have heq : end_ = start := by omega
    have hp : start + (end_ - start) / 2 = start := by omega
    by_cases hx : x = A (start + (end_ - start) / 2)
    · exact ⟨true, start + (end_ - start) / 2,
        fsiLoop_hit n A x start end_ (by omega) hx, Or.inl ⟨rfl, hx, by omega⟩⟩
    · by_cases hgt : A (start + (end_ - start) / 2) < x
      · exfalso
        rw [hp] at hgt
        rcases hR with h | h
        · omega
        · rw [heq] at h
          omega
      · have hlt : x < A (start + (end_ - start) / 2) := by omega
        refine ⟨false, start + (end_ - start) / 2,
          fsiLoop_lt_break n A x start end_ (by omega) hx hgt (by omega),
          Or.inr (Or.inr ⟨rfl, hlt, ?_⟩)⟩
        rcases hL with h | h
        · omega
        · exfalso
          have hAA : A start = A (start + (end_ - start) / 2) := by rw [hp]
          omega
  | succ d ih =>
    intro start end_ hd hse hen hsn hL hR
    by_cases hx : x = A (start + (end_ - start) / 2)
    · exact ⟨true, start + (end_ - start) / 2,
        fsiLoop_hit n A x start end_ (by omega) hx, Or.inl ⟨rfl, hx, by omega⟩⟩
    · by_cases hgt : A (start + (end_ - start) / 2) < x
      · by_cases hps : start + (end_ - start) / 2 = start
        · have hend : end_ = start + 1 := by
            rcases hR with h | h
            · omega
            · by_cases h2 : end_ = start
              · exfalso
                rw [h2] at h
                rw [hps] at hgt
                omega
              · omega
          refine ⟨false, start + (end_ - start) / 2,
            fsiLoop_gt_break n A x start end_ (by omega) hx hgt hps,
            Or.inr (Or.inl ⟨rfl, hgt, by omega, ?_⟩)⟩
          rcases hR with h | h
          · exact Or.inl (by omega)
          · refine Or.inr ?_
            have he : start + (end_ - start) / 2 + 1 = end_ := by omega
            rw [he]
            exact h
        · have hrec := ih (start + (end_ - start) / 2) end_ (by omega) (by omega) hen
            (by omega) (Or.inr hgt) hR
          rw [← fsiLoop_gt_step n A x start end_ (by omega) hx hgt hps] at hrec
          exact hrec
      · have hlt : x < A (start + (end_ - start) / 2) := by omega
        by_cases hep : end_ = start + (end_ - start) / 2
        · refine ⟨false, start + (end_ - start) / 2,
            fsiLoop_lt_break n A x start end_ (by omega) hx hgt hep,
            Or.inr (Or.inr ⟨rfl, hlt, ?_⟩)⟩
          rcases hL with h | h
          · omega
          · exfalso
            have hAA : A start = A (start + (end_ - start) / 2) := by
              rw [show start + (end_ - start) / 2 = start from by omega]
            omega
        · have hrec := ih start (start + (end_ - start) / 2) (by omega) (by omega)
            (by omega) hsn hL (Or.inr hlt)
          rw [← fsiLoop_lt_step n A x start end_ (by omega) hx hgt hep] at hrec
          exact hrec

/-- C4 (amended): for every ASCII text (each code point one byte, so the
byte-based loop bound coincides with the code-point count), every face
whose prefix advances are non-decreasing, and every target offset,
`fontStringIndex` returns an index `r` in [0, len(text)] whose advance
width is nearest to the target among all code-point boundaries, and it
never advances to the larger of the two candidate boundaries on an exact
tie: if `r` lies strictly right of the target, the advance at `r` is a
strict improvement over the one at `r - 1`.  On non-ASCII text the
function can instead panic: see the C10 analysis. -/
theorem fontStringIndex_nearest (s : GoStr) (f : GoStr → Int) (x : Int)
    (hascii : ∀ b ∈ s, b < 128)
    (hmono : ∀ i j : Nat, i ≤ j → j ≤ s.length → f (s.take i) ≤ f (s.take j)) :
    ∃ r, fontStringIndex s f x = some r ∧ r ≤ s.length
      ∧ (∀ i : Nat, i ≤ s.length → |x - f (s.take r)| ≤ |x - f (s.take i)|)
      ∧ (r = 0 ∨ f (s.take r) ≤ x
          ∨ |x - f (s.take r)| < |x - f (s.take (r - 1))|) := by
  have hdec : utf8Decode s = s := utf8Decode_ascii s hascii
  have hEnc : ∀ q : Nat, utf8Encode (s.take q) = s.take q := fun q =>
    utf8Encode_ascii (s.take q) (fun b hb => hascii b (List.take_subset q s hb))
  have hA : (fun p => fontAdvance (utf8Encode ((utf8Decode s).take p)) f)
      = fun p => f (s.take p) := by
    funext p
    rw [hdec, hEnc p]
    rfl
  rcases Nat.eq_zero_or_pos s.length with hn | hn
  · have hs : s = [] := List.length_eq_zero.mp hn
    subst hs
    unfold fontStringIndex
    rw [hA, hdec]
    simp only [List.length_nil]
    by_cases hx : x = f []
    · rw [fsiLoop_hit 0 (fun q => f (List.take q ([] : GoStr))) x 0 0 (by omega)
        (by simpa using hx)]
      refine ⟨0, rfl, by omega, ?_, Or.inr (Or.inl (le_of_eq hx.symm))⟩
      intro i hi
      rw [Nat.le_zero.mp hi]
    · by_cases hgt : f [] < x
      · rw [fsiLoop_gt_break 0 (fun q => f (List.take q ([] : GoStr))) x 0 0 (by omega)
          (by simpa using hx) (by simpa using hgt) (by omega)]
        refine ⟨0, rfl, by omega, ?_, Or.inr (Or.inl (le_of_lt hgt))⟩
        intro i hi
        rw [Nat.le_zero.mp hi]
      · rw [fsiLoop_lt_break 0 (fun q => f (List.take q ([] : GoStr))) x 0 0 (by omega)
          (by simpa using hx) (by simpa using hgt) (by omega)]
        refine ⟨0, rfl, by omega, ?_, Or.inl rfl⟩
        intro i hi
        rw [Nat.le_zero.mp hi]
  · obtain ⟨b, p, hl, hpost⟩ := fsiLoop_spec s.length (fun q => f (s.take q)) x
      s.length 0 s.length (by omega) (by omega) (by omega) (by omega)
      (Or.inl rfl) (Or.inl rfl)
    unfold fontStringIndex
    rw [hA, hdec, hl]
    rcases hpost with ⟨hb, hxp, hpn⟩ | ⟨hb, hgt, hpn, hnext⟩ | ⟨hb, hlt, hp0⟩
    · subst hb
      refine ⟨p, rfl, by omega, ?_, Or.inr (Or.inl (le_of_eq hxp.symm))⟩
      intro i hi
      have h0 : |x - f (s.take p)| = 0 := by
        rw [← hxp]
        simp
      rw [h0]
      exact abs_nonneg _
    · subst hb
      dsimp only
      rw [if_pos hn, if_neg (by omega), fontAdvance, fontAdvance, hEnc, hEnc]
      by_cases habs : |x - f (s.take (p + 1))| < |x - f (s.take p)|
      · rw [if_pos habs]
        refine ⟨p + 1, rfl, by omega, ?_, ?_⟩
        · intro i hi
          rcases le_or_lt i p with hip | hip
          · have h1 : f (s.take i) ≤ f (s.take p) := hmono i p hip (by omega)
            have h2 : |x - f (s.take p)| = x - f (s.take p) := abs_of_nonneg (by omega)
            have h3 : |x - f (s.take i)| = x - f (s.take i) := abs_of_nonneg (by omega)
            omega
          · rcases hnext with hn2 | hx2
            · rw [show i = p + 1 from by omega]
            · have h1 : f (s.take (p + 1)) ≤ f (s.take i) := hmono (p + 1) i (by omega) hi
              have h2 : |x - f (s.take (p + 1))| = -(x - f (s.take (p + 1))) :=
                abs_of_nonpos (by omega)
              have h3 : |x - f (s.take i)| = -(x - f (s.take i)) :=
                abs_of_nonpos (by omega)
              omega
        · refine Or.inr (Or.inr ?_)
          simpa using habs
      · rw [if_neg habs]
        refine ⟨p, rfl, by omega, ?_, Or.inr (Or.inl (le_of_lt hgt))⟩
        intro i hi
        rcases le_or_lt i p with hip | hip
        · have h1 : f (s.take i) ≤ f (s.take p) := hmono i p hip (by omega)
          have h2 : |x - f (s.take p)| = x - f (s.take p) := abs_of_nonneg (by omega)
          have h3 : |x - f (s.take i)| = x - f (s.take i) := abs_of_nonneg (by omega)
          omega
        · rcases hnext with hn2 | hx2
          · rw [show i = p + 1 from by omega]
            omega
          · have h1 : f (s.take (p + 1)) ≤ f (s.take i) := hmono (p + 1) i (by omega) hi
            have h2 : |x - f (s.take (p + 1))| = -(x - f (s.take (p + 1))) :=
              abs_of_nonpos (by omega)
            have h3 : |x - f (s.take i)| = -(x - f (s.take i)) :=
              abs_of_nonpos (by omega)
            omega
    · subst hb
      subst hp0
      dsimp only
      rw [if_pos hn, if_neg (by omega), fontAdvance, fontAdvance, hEnc, hEnc]
      have hnot : ¬ |x - f (s.take (0 + 1))| < |x - f (s.take 0)| := by
        have h1 : f (s.take 0) ≤ f (s.take (0 + 1)) := hmono 0 (0 + 1) (by omega) (by omega)
        have h2 : |x - f (s.take 0)| = -(x - f (s.take 0)) := abs_of_nonpos (by omega)
        have h3 : |x - f (s.take (0 + 1))| = -(x - f (s.take (0 + 1))) :=
          abs_of_nonpos (by omega)
        omega
      rw [if_neg hnot]
      refine ⟨0, rfl, by omega, ?_, Or.inl rfl⟩
      intro i hi
      have h1 : f (s.take 0) ≤ f (s.take i) := hmono 0 i (by omega) hi
      have h2 : |x - f (s.take 0)| = -(x - f (s.take 0)) := abs_of_nonpos (by omega)
      have h3 : |x - f (s.take i)| = -(x - f (s.take i)) := abs_of_nonpos (by omega)
      omega

/-- C4, counterexample: the claim as stated quantifies over every content
string, but on the non-ASCII text "é" (bytes C3 A9, one code point, whose
single boundary advances are 0 and 10 under a 10px-per-code-point face)
the lookup at offset 12 panics on the rune slice (`none`) instead of
returning a code-point index in [0, 1]. -/
theorem fontStringIndex_c4_counterexample :
    fontStringIndex [195, 169] (fun bs => 10 * ((utf8Decode bs).length : Int)) 12 = none := by
  unfold fontStringIndex
  rw [fsiLoop_gt_step _ _ _ _ _ (by decide) (by decide) (by decide) (by decide)]
  rw [fsiLoop_gt_break _ _ _ _ _ (by decide) (by decide) (by decide) (by decide)]
  decide

/-- Witness for C4 (amended) at concrete inputs: text "ab", 10px glyphs,
target offset 7. -/
theorem fontStringIndex_nearest_witness :
    (∀ b ∈ ([97, 98] : GoStr), b < 128)
    ∧ (∀ i j : Nat, i ≤ j → j ≤ ([97, 98] : GoStr).length →
        abFace (([97, 98] : GoStr).take i) ≤ abFace (([97, 98] : GoStr).take j))
    ∧ (∃ r, fontStringIndex [97, 98] abFace 7 = some r ∧ r ≤ ([97, 98] : GoStr).length
        ∧ (∀ i : Nat, i ≤ ([97, 98] : GoStr).length →
            |7 - abFace (([97, 98] : GoStr).take r)|
              ≤ |7 - abFace (([97, 98] : GoStr).take i)|)
        ∧ (r = 0 ∨ abFace (([97, 98] : GoStr).take r) ≤ 7
            ∨ |7 - abFace (([97, 98] : GoStr).take r)|
              < |7 - abFace (([97, 98] : GoStr).take (r - 1))|)) :=
  And.intro (by decide)
    (And.intro
      (by
        intro i j hij hj
        simp only [abFace, List.length_take]
        omega)
      (fontStringIndex_nearest [97, 98] abFace 7 (by decide)
        (by
          intro i j hij hj
          simp only [abFace, List.length_take]
          omega)))

/-- The six control keys in the Go map `textInputKeyToCommand`. -/
inductive TIKey where
  | left
  | right
  | home
  | keyEnd
  | backspace
  | del
deriving DecidableEq

/-- The six control commands (`textInputGoLeft` .. `textInputDelete`). -/
inductive TICmd where
  | goLeft
  | goRight
  | goStart
  | goEnd
  | backspace
  | del
deriving DecidableEq

/-- Go source `textInputKeyToCommand` (the map's key/value pairs). -/
def textInputKeyToCommand : TIKey → TICmd
  | .left => .goLeft
  | .right => .goRight
  | .home => .goStart
  | .keyEnd => .goEnd
  | .backspace => .backspace
  | .del => .del

/-- Go source `t.commandToFunc` dispatch, built in `NewTextInput`. -/
def commandToFunc (cmd : TICmd) (st : EditState) : Option EditState :=
  match cmd with
  | .goLeft => some (doGoLeft st)
  | .goRight => some (doGoRight st)
  | .goStart => some (doGoStart st)
  | .goEnd => some (doGoEnd st)
  | .backspace => doBackspace st
  | .del => doDelete st

/-- One frame's input sample: typed characters, a held-key predicate, and
the pointer state ("left button just pressed inside the widget's effective
input layer" plus the pointer position). -/
structure InputSample where
  chars : List Nat
  keyPressed : TIKey → Bool
  mouseJustPressed : Bool
  cursorX : Int
  cursorY : Int

/-- The machine state held in `t.state` between evaluations: the closures
`idleState(newKeyOrCommand)`, `charInputState(c)` and
`commandState(cmd, key, delay, timer, expired)`.  The one-shot
`time.AfterFunc` timer together with its monotonic atomic `expired` flag
(set once by the timer goroutine, never reset) is modelled by the absolute
wall-clock deadline `timer = some deadline`; the flag reads true at query
time `now` iff `deadline ≤ now`. -/
inductive TIMachineState where
  | idle (newKeyOrCommand : Bool)
  | charInput (c : Nat)
  | command (cmd : TICmd) (key : TIKey) (delay : Nat) (timer : Option Nat)
deriving DecidableEq

/-- Observable effects of one state evaluation: a repeat-command execution
(`t.commandToFunc[cmd]()`) or a character insertion attempt (`t.doInsert`). -/
inductive TIEvent where
  | cmdExec (cmd : TICmd)
  | charIns (c : Nat)
deriving DecidableEq

/-- The first held key in the map's iteration order `ord`: Go iterates
`for key, cmd := range textInputKeyToCommand` and returns on the first
pressed key; the iteration order varies between runs, so it is an explicit
parameter here. -/
def firstPressedKey (ord : List TIKey) (inp : InputSample) : Option TIKey :=
  ord.find? (fun k => inp.keyPressed k)

/-- One evaluation of the `t.state` closure; the result is (next state,
rerun this frame?, new edit state, emitted events).  `none` models a panic
inside an edit operation. -/
def stateStep (repeatDelay repeatInterval : Nat) (face : GoStr → Int)
    (valid : Option (GoStr → Bool)) (ord : List TIKey) (inp : InputSample)
    (now : Nat) : TIMachineState → EditState →
    Option (TIMachineState × Bool × EditState × List TIEvent)
  | .idle newKeyOrCommand, st =>
    let delay := if newKeyOrCommand then repeatDelay else repeatInterval
    match inp.chars with
    | c :: _ => some (.charInput c, true, st, [])
    | [] =>
      match firstPressedKey ord inp with
      | some key =>
        some (.command (textInputKeyToCommand key) key delay none, true, st, [])
      | none =>
        if inp.mouseJustPressed then
          match doGoXY face inp.cursorX inp.cursorY st with
          | none => none
          | some st1 => some (.idle true, false, st1, [])
        else some (.idle true, false, st, [])
  | .charInput c, st =>
    if st.disabled then some (.idle true, false, st, [])
    else
      match doInsert valid c st with
      | none => none
      | some st1 => some (.idle true, false, st1, [.charIns c])
  | .command cmd key delay timer, st =>
    if inp.keyPressed key = false then some (.idle true, true, st, [])
    else
      match timer with
      | some deadline =>
        if deadline ≤ now then some (.idle false, true, st, [])
        else some (.command cmd key delay (some deadline), false, st, [])
      | none =>
        match commandToFunc cmd st with
        | none => none
        | some st1 =>
          some (.command cmd key delay (some (now + delay)), false, st1, [.cmdExec cmd])

/-- The `for` loop at the heart of `Render`: re-evaluate `t.state` until
`rerun` is false.  Go's loop is unbounded; the model carries fuel, and
every theorem below exhibits a completed run (a `some` result). -/
def runStateLoop (fuel : Nat) (repeatDelay repeatInterval : Nat) (face : GoStr → Int)
    (valid : Option (GoStr → Bool)) (ord : List TIKey) (inp : InputSample) (now : Nat)
    (ms : TIMachineState) (st : EditState) :
    Option (TIMachineState × EditState × List TIEvent) :=
  match fuel with
  | 0 => none
  | fuel + 1 =>
    match stateStep repeatDelay repeatInterval face valid ord inp now ms st with
    | none => none
    | some (ms1, rerun, st1, evs) =>
      if rerun then
        match runStateLoop fuel repeatDelay repeatInterval face valid ord inp now ms1 st1 with
        | none => none
        | some (ms2, st2, evs2) => some (ms2, st2, evs ++ evs2)
      else some (ms1, st1, evs)

/-- One frame evaluation of the state machine: the loop with enough fuel
for the longest same-frame transition chain the three states can form. -/
def frameEval (repeatDelay repeatInterval : Nat) (face : GoStr → Int)
    (valid : Option (GoStr → Bool)) (ord : List TIKey) (inp : InputSample) (now : Nat)
    (ms : TIMachineState) (st : EditState) :
    Option (TIMachineState × EditState × List TIEvent) :=
  runStateLoop 4 repeatDelay repeatInterval face valid ord inp now ms st

/-- Number of repeat-command executions among the events. -/
def countCmdExec (evs : List TIEvent) : Nat :=
  (evs.filter (fun e => match e with | .cmdExec _ => true | .charIns _ => false)).length

/-- Idle with no typed character and a held command key: enter
CommandRepeat for the first held key in iteration order, re-running in the
same frame; the one-shot delay is `repeatDelay` for a new key and
`repeatInterval` when re-entered after a repeat fired. -/
theorem stateStep_idle_key (D I : Nat) (face : GoStr → Int)
    (valid : Option (GoStr → Bool)) (ord : List TIKey) (inp : InputSample) (now : Nat)
    (b : Bool) (st : EditState) (k : TIKey)
    (hchars : inp.chars = []) (hfind : firstPressedKey ord inp = some k) :
    stateStep D I face valid ord inp now (.idle b) st
      = some (.command (textInputKeyToCommand k) k (if b then D else I) none,
          true, st, []) := by
  simp only [stateStep, hchars, hfind]

/-- CommandRepeat with no timer yet: execute the command once, arm the
one-shot timer, stay (no same-frame rerun). -/
theorem stateStep_command_start (D I : Nat) (face : GoStr → Int)
    (valid : Option (GoStr → Bool)) (ord : List TIKey) (inp : InputSample) (now : Nat)
    (cmd : TICmd) (k : TIKey) (d : Nat) (st st1 : EditState)
    (hkp : inp.keyPressed k = true) (hexec : commandToFunc cmd st = some st1) :
    stateStep D I face valid ord inp now (.command cmd k d none) st
      = some (.command cmd k d (some (now + d)), false, st1, [.cmdExec cmd]) := by
  simp only [stateStep, hkp, hexec]
  rfl

/-- CommandRepeat, key held, timer not yet expired: no effect. -/
theorem stateStep_command_wait (D I : Nat) (face : GoStr → Int)
    (valid : Option (GoStr → Bool)) (ord : List TIKey) (inp : InputSample) (now : Nat)
    (cmd : TICmd) (k : TIKey) (d dl : Nat) (st : EditState)
    (hkp : inp.keyPressed k = true) (hlt : now < dl) :
    stateStep D I face valid ord inp now (.command cmd k d (some dl)) st
      = some (.command cmd k d (some dl), false, st, []) := by
  simp only [stateStep, hkp]
  have hnot : ¬ dl ≤ now := by omega
  rw [if_neg hnot]
  rfl

/-- CommandRepeat, key held, timer expired: back to Idle (with the
short-interval flag) in the same frame, executing nothing here. -/
theorem stateStep_command_expired (D I : Nat) (face : GoStr → Int)
    (valid : Option (GoStr → Bool)) (ord : List TIKey) (inp : InputSample) (now : Nat)
    (cmd : TICmd) (k : TIKey) (d dl : Nat) (st : EditState)
    (hkp : inp.keyPressed k = true) (hge : dl ≤ now) :
    stateStep D I face valid ord inp now (.command cmd k d (some dl)) st
      = some (.idle false, true, st, []) := by
  simp only [stateStep, hkp]
  rw [if_pos hge]
  rfl

/-- CommandRepeat, key released: back to Idle in the same frame, whatever
the timer says, executing nothing here. -/
theorem stateStep_command_released (D I : Nat) (face : GoStr → Int)
    (valid : Option (GoStr → Bool)) (ord : List TIKey) (inp : InputSample) (now : Nat)
    (cmd : TICmd) (k : TIKey) (d : Nat) (timer : Option Nat) (st : EditState)
    (hkp : inp.keyPressed k = false) :
    stateStep D I face valid ord inp now (.command cmd k d timer) st
      = some (.idle true, true, st, []) := by
  simp only [stateStep, hkp]
  rfl

/-- Idle with nothing to do: stay idle. -/
theorem stateStep_idle_nothing (D I : Nat) (face : GoStr → Int)
    (valid : Option (GoStr → Bool)) (ord : List TIKey) (inp : InputSample) (now : Nat)
    (b : Bool) (st : EditState)
    (hchars : inp.chars = []) (hfind : firstPressedKey ord inp = none)
    (hmouse : inp.mouseJustPressed = false) :
    stateStep D I face valid ord inp now (.idle b) st
      = some (.idle true, false, st, []) := by
  simp only [stateStep, hchars, hfind, hmouse]
  rfl

/-- One state evaluation emits at most one command execution, and a step
requesting a same-frame rerun emits nothing. -/
theorem stateStep_events (D I : Nat) (face : GoStr → Int)
    (valid : Option (GoStr → Bool)) (ord : List TIKey) (inp : InputSample) (now : Nat)
    (ms : TIMachineState) (st : EditState) :
    ∀ ms1 rerun st1 evs,
      stateStep D I face valid ord inp now ms st = some (ms1, rerun, st1, evs) →
      countCmdExec evs ≤ 1 ∧ (rerun = true → evs = []) := by
  intro ms1 rerun st1 evs h
  cases ms <;> simp only [stateStep] at h <;>
    (repeat' split at h) <;>
    first
      | (simp only [Option.some.injEq, Prod.mk.injEq] at h
         obtain ⟨h1, h2, h3, h4⟩ := h
         subst h2
         subst h4
         simp [countCmdExec])
      | exact absurd h (by simp)

/-- A completed frame-loop run emits at most one command execution
(executing steps end the loop, and rerunning steps emit nothing). -/
theorem runStateLoop_events (D I : Nat) (face : GoStr → Int)
    (valid : Option (GoStr → Bool)) (ord : List TIKey) (inp : InputSample) (now : Nat) :
    ∀ (fuel : Nat) (ms : TIMachineState) (st : EditState)
      (res : TIMachineState × EditState × List TIEvent),
      runStateLoop fuel D I face valid ord inp now ms st = some res →
      countCmdExec res.2.2 ≤ 1 := by
  intro fuel
  induction fuel with
  | zero =>
    intro ms st res h
    simp [runStateLoop] at h
  | succ fuel ih =>
    intro ms st res h
    simp only [runStateLoop] at h
    cases hs : stateStep D I face valid ord inp now ms st with
    | none =>
      rw [hs] at h
      exact absurd h (by simp)
    | some out =>
      obtain ⟨ms1, rerun, st1, evs⟩ := out
      rw [hs] at h
      have hev := stateStep_events D I face valid ord inp now ms st ms1 rerun st1 evs hs
      cases rerun with
      | false =>
        simp only [Bool.false_eq_true, if_false, Option.some.injEq] at h
        rw [← h]
        exact hev.1
      | true =>
        simp only [if_true] at h
        cases hr : runStateLoop fuel D I face valid ord inp now ms1 st1 with
        | none =>
          rw [hr] at h
          exact absurd h (by simp)
        | some res2 =>
          rw [hr] at h
          obtain ⟨ms2, st2, evs2⟩ := res2
          simp only [Option.some.injEq] at h
          rw [← h]
          have hnil : evs = [] := hev.2 rfl
          rw [hnil]
          simpa using ih ms1 st1 (ms2, st2, evs2) hr

/-- C6: in CommandRepeat, the command executes exactly once immediately on
first entry (same frame as the key was found held), arming a one-shot
timer of `repeatDelay`; while the key stays held, a frame strictly before
the deadline changes nothing; the frame at or after the deadline executes
the command exactly once more and arms a `repeatInterval` timer (the
re-entry goes through `idleState(false)`); and no frame evaluation ever
emits more than one command execution. -/
theorem commandRepeat_timing (D I : Nat) (face : GoStr → Int)
    (valid : Option (GoStr → Bool)) (ord : List TIKey) (inp : InputSample)
    (now : Nat) (k : TIKey) (st st1 : EditState)
    (hchars : inp.chars = [])
    (hfind : firstPressedKey ord inp = some k)
    (hexec : commandToFunc (textInputKeyToCommand k) st = some st1) :
    (frameEval D I face valid ord inp now (.idle true) st
      = some (.command (textInputKeyToCommand k) k D (some (now + D)), st1,
          [.cmdExec (textInputKeyToCommand k)]))
    ∧ (∀ (cmd : TICmd) (d dl : Nat), now < dl →
        frameEval D I face valid ord inp now (.command cmd k d (some dl)) st
          = some (.command cmd k d (some dl), st, []))
    ∧ (∀ (cmd : TICmd) (d dl : Nat), dl ≤ now →
        frameEval D I face valid ord inp now (.command cmd k d (some dl)) st
          = some (.command (textInputKeyToCommand k) k I (some (now + I)), st1,
              [.cmdExec (textInputKeyToCommand k)]))
    ∧ (∀ (ms : TIMachineState) (st2 : EditState)
        (res : TIMachineState × EditState × List TIEvent),
        frameEval D I face valid ord inp now ms st2 = some res →
        countCmdExec res.2.2 ≤ 1) := by
  have hkp : inp.keyPressed k = true := List.find?_some hfind
  refine And.intro ?_ (And.intro ?_ (And.intro ?_ ?_))
  · unfold frameEval
    rw [runStateLoop, stateStep_idle_key D I face valid ord inp now true st k hchars hfind]
    simp only [eq_self_iff_true, Bool.false_eq_true, if_true, if_false]
    rw [runStateLoop, stateStep_command_start D I face valid ord inp now
      (textInputKeyToCommand k) k D st st1 hkp hexec]
    rfl
  · intro cmd d dl hlt
    unfold frameEval
    rw [runStateLoop, stateStep_command_wait D I face valid ord inp now cmd k d dl st hkp hlt]
    rfl
  · intro cmd d dl hge
    unfold frameEval
    rw [runStateLoop,
      stateStep_command_expired D I face valid ord inp now cmd k d dl st hkp hge]
    simp only [eq_self_iff_true, Bool.false_eq_true, if_true, if_false]
    rw [runStateLoop, stateStep_idle_key D I face valid ord inp now false st k hchars hfind]
    simp only [eq_self_iff_true, Bool.false_eq_true, if_true, if_false]
    rw [runStateLoop, stateStep_command_start D I face valid ord inp now
      (textInputKeyToCommand k) k I st st1 hkp hexec]
    rfl
  · intro ms st2 res h
    exact runStateLoop_events D I face valid ord inp now 4 ms st2 res h

/-- The "hello" edit state of the key-repeat scenario. -/
def helloState : EditState :=
  { text := [104, 101, 108, 108, 111], cursorPosition := 5, scrollOffset := 0,
    rectMinX := 0, rectMinY := 0, rectMaxX := 100, rectMaxY := 20,
    padL := 0, padT := 0, padR := 0, padB := 0, disabled := false }

/-- An input sample holding only the Backspace key. -/
def backspaceHeld : InputSample :=
  { chars := [],
    keyPressed := fun k => match k with | .backspace => true | _ => false,
    mouseJustPressed := false, cursorX := 0, cursorY := 0 }

/-- Witness for C6 at concrete inputs: holding Backspace on "hello" with
cursor at the end, delay 300, interval 35, frame at t = 0. -/
theorem commandRepeat_timing_witness :
    (backspaceHeld.chars = []
      ∧ firstPressedKey [TIKey.left, TIKey.right, TIKey.home, TIKey.keyEnd,
          TIKey.backspace, TIKey.del] backspaceHeld = some TIKey.backspace
      ∧ commandToFunc (textInputKeyToCommand TIKey.backspace) helloState
          = some { helloState with text := [104, 101, 108, 108], cursorPosition := 4 })
    ∧ ((frameEval 300 35 abFace none [TIKey.left, TIKey.right, TIKey.home, TIKey.keyEnd,
          TIKey.backspace, TIKey.del] backspaceHeld 0 (.idle true) helloState
        = some (.command (textInputKeyToCommand TIKey.backspace) TIKey.backspace 300
            (some (0 + 300)),
            { helloState with text := [104, 101, 108, 108], cursorPosition := 4 },
            [.cmdExec (textInputKeyToCommand TIKey.backspace)]))
      ∧ (∀ (cmd : TICmd) (d dl : Nat), 0 < dl →
          frameEval 300 35 abFace none [TIKey.left, TIKey.right, TIKey.home, TIKey.keyEnd,
            TIKey.backspace, TIKey.del] backspaceHeld 0
            (.command cmd TIKey.backspace d (some dl)) helloState
            = some (.command cmd TIKey.backspace d (some dl), helloState, []))
      ∧ (∀ (cmd : TICmd) (d dl : Nat), dl ≤ 0 →
          frameEval 300 35 abFace none [TIKey.left, TIKey.right, TIKey.home, TIKey.keyEnd,
            TIKey.backspace, TIKey.del] backspaceHeld 0
            (.command cmd TIKey.backspace d (some dl)) helloState
            = some (.command (textInputKeyToCommand TIKey.backspace) TIKey.backspace 35
                (some (0 + 35)),
                { helloState with text := [104, 101, 108, 108], cursorPosition := 4 },
                [.cmdExec (textInputKeyToCommand TIKey.backspace)]))
      ∧ (∀ (ms : TIMachineState) (st2 : EditState)
          (res : TIMachineState × EditState × List TIEvent),
          frameEval 300 35 abFace none [TIKey.left, TIKey.right, TIKey.home, TIKey.keyEnd,
            TIKey.backspace, TIKey.del] backspaceHeld 0 ms st2 = some res →
          countCmdExec res.2.2 ≤ 1)) :=
  And.intro (And.intro (by decide) (And.intro (by decide) (by decide)))
    (commandRepeat_timing 300 35 abFace none
      [TIKey.left, TIKey.right, TIKey.home, TIKey.keyEnd, TIKey.backspace, TIKey.del]
      backspaceHeld 0 TIKey.backspace helloState
      { helloState with text := [104, 101, 108, 108], cursorPosition := 4 }
      (by decide) (by decide) (by decide))

/-- C7: in a frame whose input sample shows the held key released (here:
all keys up, no character typed, no click), a CommandRepeat state
transitions back to Idle within that same evaluation, emits no command
execution and leaves the edit state untouched — whatever the timer holds,
including an already-expired deadline. -/
theorem commandRelease_no_extra_repeat (D I : Nat) (face : GoStr → Int)
    (valid : Option (GoStr → Bool)) (ord : List TIKey) (inp : InputSample) (now : Nat)
    (st : EditState)
    (hchars : inp.chars = [])
    (hkeys : ∀ k2 : TIKey, inp.keyPressed k2 = false)
    (hmouse : inp.mouseJustPressed = false) :
    ∀ (cmd : TICmd) (k : TIKey) (d : Nat) (timer : Option Nat),
      frameEval D I face valid ord inp now (.command cmd k d timer) st
        = some (.idle true, st, []) := by
  intro cmd k d timer
  have hfind : firstPressedKey ord inp = none := by
    unfold firstPressedKey
    apply List.find?_eq_none.mpr
    intro k2 _
    simp [hkeys k2]
  unfold frameEval
  rw [runStateLoop,
    stateStep_command_released D I face valid ord inp now cmd k d timer st (hkeys k)]
  simp only [eq_self_iff_true, if_true]
  rw [runStateLoop,
    stateStep_idle_nothing D I face valid ord inp now true st hchars hfind hmouse]
  rfl

/-- An input sample with every key up. -/
def allKeysUp : InputSample :=
  { chars := [], keyPressed := fun _ => false,
    mouseJustPressed := false, cursorX := 0, cursorY := 0 }

/-- Witness for C7 at concrete inputs: Backspace repeat on "hello" with an
expired timer (deadline 5 at time 400), key released. -/
theorem commandRelease_no_extra_repeat_witness :
    (allKeysUp.chars = []
      ∧ (∀ k2 : TIKey, allKeysUp.keyPressed k2 = false)
      ∧ allKeysUp.mouseJustPressed = false)
    ∧ (∀ (cmd : TICmd) (k : TIKey) (d : Nat) (timer : Option Nat),
        frameEval 300 35 abFace none [TIKey.left, TIKey.right, TIKey.home, TIKey.keyEnd,
          TIKey.backspace, TIKey.del] allKeysUp 400 (.command cmd k d timer) helloState
          = some (.idle true, helloState, [])) :=
  And.intro (And.intro rfl (And.intro (fun _ => rfl) rfl))
    (commandRelease_no_extra_repeat 300 35 abFace none
      [TIKey.left, TIKey.right, TIKey.home, TIKey.keyEnd, TIKey.backspace, TIKey.del]
      allKeysUp 400 helloState rfl (fun _ => rfl) rfl)

/-- An input sample holding Left and Backspace simultaneously. -/
def leftAndBackspaceHeld : InputSample :=
  { chars := [],
    keyPressed := fun k => match k with
      | .left => true
      | .backspace => true
      | _ => false,
    mouseJustPressed := false, cursorX := 0, cursorY := 0 }

/-- C9, counterexample: from the identical machine state (Idle) and the
identical input sample (Left and Backspace both held), two frame
evaluations that differ only in the map iteration order — which Go
randomises between runs and which is no part of the state or the input —
select different commands (Left wins in one run and executes `doGoLeft`;
Backspace wins in the other and executes `doBackspace`), so the winner is
not determined by a fixed order. -/
theorem frameEval_c9_counterexample :
    frameEval 300 35 abFace none
        [TIKey.left, TIKey.backspace, TIKey.right, TIKey.home, TIKey.keyEnd, TIKey.del]
        leftAndBackspaceHeld 0 (.idle true) helloState
      ≠ frameEval 300 35 abFace none
        [TIKey.backspace, TIKey.left, TIKey.right, TIKey.home, TIKey.keyEnd, TIKey.del]
        leftAndBackspaceHeld 0 (.idle true) helloState := by
  decide

/-- C9 (amended): the selected command is a deterministic function of the
machine state, the input sample AND the map iteration order: from Idle
with no typed character, the winner is the command of the FIRST held key
in the iteration order.  For a fixed order, two runs from identical state
and input therefore select the same command; but Go randomises map
iteration between runs, so with several keys held the winner can differ
between two otherwise identical frame evaluations (see the
counterexample). -/
theorem frameEval_key_order (D I : Nat) (face : GoStr → Int)
    (valid : Option (GoStr → Bool)) (ord : List TIKey) (inp : InputSample) (now : Nat)
    (b : Bool) (k : TIKey) (st st1 : EditState)
    (hchars : inp.chars = [])
    (hfind : firstPressedKey ord inp = some k)
    (hexec : commandToFunc (textInputKeyToCommand k) st = some st1) :
    frameEval D I face valid ord inp now (.idle b) st
      = some (.command (textInputKeyToCommand k) k (if b then D else I)
          (some (now + (if b then D else I))), st1,
          [.cmdExec (textInputKeyToCommand k)]) := by
  have hkp : inp.keyPressed k = true := List.find?_some hfind
  unfold frameEval
  rw [runStateLoop, stateStep_idle_key D I face valid ord inp now b st k hchars hfind]
  cases b with
  | false =>
    simp only [Bool.false_eq_true, if_false, eq_self_iff_true, if_true]
    rw [runStateLoop, stateStep_command_start D I face valid ord inp now
      (textInputKeyToCommand k) k I st st1 hkp hexec]
    rfl
  | true =>
    simp only [eq_self_iff_true, if_true]
    rw [runStateLoop, stateStep_command_start D I face valid ord inp now
      (textInputKeyToCommand k) k D st st1 hkp hexec]
    rfl

/-- Witness for C9 (amended) at concrete inputs: with Left first in the
iteration order and both Left and Backspace held, Left wins. -/
theorem frameEval_key_order_witness :
    (leftAndBackspaceHeld.chars = []
      ∧ firstPressedKey
          [TIKey.left, TIKey.backspace, TIKey.right, TIKey.home, TIKey.keyEnd, TIKey.del]
          leftAndBackspaceHeld = some TIKey.left
      ∧ commandToFunc (textInputKeyToCommand TIKey.left) helloState
          = some { helloState with cursorPosition := 4 })
    ∧ frameEval 300 35 abFace none
        [TIKey.left, TIKey.backspace, TIKey.right, TIKey.home, TIKey.keyEnd, TIKey.del]
        leftAndBackspaceHeld 0 (.idle true) helloState
      = some (.command (textInputKeyToCommand TIKey.left) TIKey.left
          (if true then 300 else 35) (some (0 + (if true then 300 else 35))),
          { helloState with cursorPosition := 4 },
          [.cmdExec (textInputKeyToCommand TIKey.left)]) :=
  And.intro (And.intro (by decide) (And.intro (by decide) (by decide)))
    (frameEval_key_order 300 35 abFace none
      [TIKey.left, TIKey.backspace, TIKey.right, TIKey.home, TIKey.keyEnd, TIKey.del]
      leftAndBackspaceHeld 0 true TIKey.left helloState
      { helloState with cursorPosition := 4 } (by decide) (by decide) (by decide))

/-- The scroll-offset adjustment in Go source `TextInput.drawTextAndCaret`
(right-edge clamp checked first, then left-edge clamp):
`cx` is the caret X within the unscrolled text
(`fontAdvance(t.InputText[:t.cursorPosition], t.face)`), `s0` the incoming
`t.scrollOffset`, `caretWidth` the caret glyph width (`t.caret.Width`);
`tr.Min.X = rect.Min.X + padding.Left`. -/
def scrollClamp (rectMinX rectMaxX padL padR caretWidth cx s0 : Int) : Int :=
  let trMinX := rectMinX + padL
  let dx1 := trMinX + s0 + cx + caretWidth + padR - rectMaxX
  let s1 := if 0 < dx1 then s0 - dx1 else s0
  let dx2 := trMinX + s1 + cx - padL - rectMinX
  if dx2 < 0 then s1 - dx2 else s1

/-- The caret's screen X after the clamps: the caret is rendered at
`tr.Min.X + scrollOffset + cx`. -/
def caretScreenX (rectMinX rectMaxX padL padR caretWidth cx s0 : Int) : Int :=
  rectMinX + padL + scrollClamp rectMinX rectMaxX padL padR caretWidth cx s0 + cx

/-- C8: with non-negative paddings and caret width, and a rectangle wide
enough for paddings plus caret, applying the right-edge clamp and then the
left-edge clamp leaves the caret's screen X inside the rectangle (at or
right of the left edge, and with caret glyph and right padding still
fitting before the right edge); and whenever the right-edge clamp fires,
the caret's right edge (caret X + caret width + right padding) lands
EXACTLY on the rectangle's right edge — no overshoot. -/
theorem scrollClamp_keeps_caret (rectMinX rectMaxX padL padR caretWidth cx s0 : Int)
    (hL : 0 ≤ padL) (_hR : 0 ≤ padR) (_hW : 0 ≤ caretWidth)
    (hfit : rectMinX + padL + caretWidth + padR ≤ rectMaxX) :
    (rectMinX ≤ caretScreenX rectMinX rectMaxX padL padR caretWidth cx s0
      ∧ caretScreenX rectMinX rectMaxX padL padR caretWidth cx s0 + caretWidth + padR
          ≤ rectMaxX)
    ∧ (0 < rectMinX + padL + s0 + cx + caretWidth + padR - rectMaxX →
        caretScreenX rectMinX rectMaxX padL padR caretWidth cx s0 + caretWidth + padR
          = rectMaxX) := by
  simp only [caretScreenX, scrollClamp]
  split_ifs <;>
    refine And.intro (And.intro (by omega) (by omega)) (fun hov => by omega)

/-- Witness for C8 at the spec's scenario: rectangle [0, 100), padding 5
on each side, caret width 2, caret at local X = 200, scrollOffset 0: one
frame's adjustment sets scrollOffset to -112 and the caret's right edge to
exactly 100. -/
theorem scrollClamp_keeps_caret_witness :
    ((0 : Int) ≤ 5 ∧ (0 : Int) ≤ 5 ∧ (0 : Int) ≤ 2 ∧ (0 : Int) + 5 + 2 + 5 ≤ 100)
    ∧ ((0 ≤ caretScreenX 0 100 5 5 2 200 0
        ∧ caretScreenX 0 100 5 5 2 200 0 + 2 + 5 ≤ 100)
      ∧ ((0 : Int) < 0 + 5 + 0 + 200 + 2 + 5 - 100 →
          caretScreenX 0 100 5 5 2 200 0 + 2 + 5 = 100)) :=
  And.intro (And.intro (by decide) (And.intro (by decide) (And.intro (by decide) (by decide))))
    (scrollClamp_keeps_caret 0 100 5 5 2 200 0 (by decide) (by decide) (by decide) (by decide))
